import Mathlib

/-!
Verification development for the Interview repository
(conversation orchestration and audio playback subsystem).

The definitions below are a shallow embedding of the two core source files:

* `src/Interview/services/audio.ts` — the `AudioService` class and the
  `decodeAudioData` helper;
* `src/unnamed/part_000` — the `InterviewSession` component
  (`handlePlayAudio`, `handleSendMessage`, the start-interview effect and
  the input controls).

Stateful code is modelled as explicit state passing; the asynchronous
parts of the Web Audio interaction are modelled as a small-step system in
which the `ended` event of a source node is delivered as a separate step.
-/

namespace Interview

/-! ## Audio playback service (`src/Interview/services/audio.ts`)

`AudioService` holds one field `currentSource : AudioBufferSourceNode | null`.

The embedding follows the JavaScript event loop semantics of the class:

* `playAudio` first runs `this.stop()` synchronously, then awaits
  `decodeAudioData`.  That await is a microtask (the decode body has no
  inner suspension), so the continuation — creating the source, setting
  its `onended` handler, assigning `this.currentSource` and calling
  `start()` — runs before any other browser task can run.  The whole call
  is therefore modelled as one atomic step (`playOkOp`, or `playFailOp`
  when decoding or device acquisition throws and the `catch` block runs).
* Calling `node.stop()` on a started `AudioBufferSourceNode` halts the
  sound immediately and schedules its `ended` event, which the browser
  delivers later as its own task; the handler installed at line 66 of the
  source then runs `this.currentSource = null; if (onEnded) onEnded();`.
  This delivery is the separate step `deliverOp`.
* A source may also reach its natural end (`natEndOp`), which likewise
  schedules the `ended` event.

Each playback's `onEnded` closure is identified by the index of the
source created for it (each `playAudio` call creates at most one source
and exactly one closure; a failed call consumes an index as well). -/

/-- One `AudioBufferSourceNode` created by `playAudio`, identified by its
position in `AudioState.sources`. -/
structure Src where
  /-- `node.stop()` has been called on it (by `AudioService.stop`). -/
  stopRequested : Bool
  /-- the buffer finished playing on its own. -/
  naturallyEnded : Bool
  /-- its `ended` handler has run (the registered callback has fired). -/
  delivered : Bool
  /-- the `playAudio` call failed before starting a node; the entry only
  records the consumed `onEnded` closure, it never sounds. -/
  failed : Bool
deriving DecidableEq, Repr

/-- State of the `AudioService` instance together with the scheduling
bookkeeping of the sources it created. -/
structure AudioState where
  /-- every source created so far, in creation order. -/
  sources : List Src
  /-- the `currentSource` field of the class (index into `sources`). -/
  currentSource : Option Nat
  /-- indices whose `onEnded` callback has fired, in firing order. -/
  firedCallbacks : List Nat
deriving DecidableEq, Repr

/-- The freshly constructed service: `currentSource = null`. -/
def initialAudio : AudioState := ⟨[], none, []⟩

/-- Update the element at index `i` (identity when out of range). -/
def modifyAt (f : Src → Src) : Nat → List Src → List Src
  | _, [] => []
  | 0, x :: xs => f x :: xs
  | n + 1, x :: xs => x :: modifyAt f n xs

/-- `AudioService.stop` (audio.ts lines 79–88): if `currentSource` is set,
call `node.stop()` on it and null the field.  It does not itself invoke
any callback. -/
def stopOp (s : AudioState) : AudioState :=
  match s.currentSource with
  | none => s
  | some i =>
      { s with
        sources := modifyAt (fun src => { src with stopRequested := true }) i s.sources
        currentSource := none }

/-- `AudioService.playAudio` on its success path (audio.ts lines 54–72):
`this.stop()`, decode, create a source with a fresh `onended` closure,
assign `this.currentSource`, `start()`. -/
def playOkOp (s : AudioState) : AudioState :=
  let s1 := stopOp s
  { s1 with
    sources := s1.sources ++ [⟨false, false, false, false⟩]
    currentSource := some s1.sources.length }

/-- `AudioService.playAudio` on its failure path (audio.ts lines 73–76):
`this.stop()` has run, the `try` body throws before a node is started,
and the `catch` block invokes the new call's `onEnded` immediately. -/
def playFailOp (s : AudioState) : AudioState :=
  let s1 := stopOp s
  { s1 with
    sources := s1.sources ++ [⟨false, false, true, true⟩]
    firedCallbacks := s1.firedCallbacks ++ [s1.sources.length] }

/-- Is the source at index `i` currently producing sound?  A started node
sounds until it is stopped or reaches its natural end; failed entries
never sound. -/
def soundingB (src : Src) : Bool :=
  !src.failed && !src.stopRequested && !src.naturallyEnded

/-- Number of concurrently sounding outputs. -/
def soundingCount (s : AudioState) : Nat :=
  (s.sources.filter soundingB).length

/-- The `ended` event of source `i` is scheduled but its handler has not
run yet. -/
def endedPendingB (s : AudioState) (i : Nat) : Bool :=
  match s.sources[i]? with
  | none => false
  | some src => !src.failed && (src.stopRequested || src.naturallyEnded) && !src.delivered

/-- The buffer of source `i` finishes playing on its own (identity unless
`i` is sounding). -/
def natEndOp (s : AudioState) (i : Nat) : AudioState :=
  match s.sources[i]? with
  | none => s
  | some src =>
      if soundingB src then
        { s with sources := modifyAt (fun x => { x with naturallyEnded := true }) i s.sources }
      else s

/-- The browser delivers the scheduled `ended` event of source `i`: the
handler installed at audio.ts lines 66–69 runs
`this.currentSource = null; if (onEnded) onEnded();` — note that it nulls
the field unconditionally, whatever source the field holds now.
Identity when no such event is pending. -/
def deliverOp (s : AudioState) (i : Nat) : AudioState :=
  if endedPendingB s i then
    { s with
      sources := modifyAt (fun x => { x with delivered := true }) i s.sources
      currentSource := none
      firedCallbacks := s.firedCallbacks ++ [i] }
  else s

/-- One step of the audio subsystem: a `playAudio` call that succeeds, a
`playAudio` call whose decode/device acquisition fails, an external
`stop()` call, the natural end of a source, or the delivery of a pending
`ended` event. -/
inductive AOp where
  | playOk : AOp
  | playFail : AOp
  | stop : AOp
  | natEnd : Nat → AOp
  | deliver : Nat → AOp
deriving DecidableEq, Repr

/-- Apply one step. -/
def applyOp (s : AudioState) : AOp → AudioState
  | .playOk => playOkOp s
  | .playFail => playFailOp s
  | .stop => stopOp s
  | .natEnd i => natEndOp s i
  | .deliver i => deliverOp s i

/-- Run a sequence of steps from the freshly constructed service. -/
def audioRun (ops : List AOp) : AudioState :=
  ops.foldl applyOp initialAudio

/-- Does a trace contain an external `stop()` call? -/
def hasStopOp (ops : List AOp) : Bool :=
  ops.any (fun o => o = .stop)

/-- Does a trace contain a natural end of any source? -/
def hasNatEndOp (ops : List AOp) : Bool :=
  ops.any (fun o => match o with | .natEnd _ => true | _ => false)

/-! ## PCM decoding (`decodeAudioData`, audio.ts lines 18–36)

The function views the payload bytes as an `Int16Array` (16-bit signed
little-endian words, the layout of the typed-array view on the payload
buffer), takes `frameCount = dataInt16.length / numChannels` with
`numChannels = 1`, and fills the channel with
`dataInt16[i] / 32768.0`.  Samples are modelled as exact rationals: the
division of an `Int16` by the power of two 32768 is exact in `Float32`,
so nothing is lost.  Constructing an `Int16Array` over a buffer of odd
byte length throws a `RangeError`, modelled as `none`; buffer allocation
by the audio context is modelled as succeeding. -/

/-- Reassemble one signed 16-bit little-endian sample from its two bytes. -/
def toInt16 (lo hi : Nat) : Int :=
  if lo + 256 * hi < 32768 then (lo + 256 * hi : Int)
  else (lo + 256 * hi : Int) - 65536

/-- One normalized sample: `dataInt16[i] / 32768.0` (audio.ts line 32). -/
def normSample (lo hi : Nat) : ℚ :=
  (toInt16 lo hi : ℚ) / 32768

/-- The sample loop of `decodeAudioData`: consecutive byte pairs, each
decoded and normalized. -/
def pcmDecode : List Nat → List ℚ
  | lo :: hi :: rest => normSample lo hi :: pcmDecode rest
  | _ => []

/-- `decodeAudioData` on a raw byte payload (mono, the only channel). -/
def decodeAudioData (data : List Nat) : Option (List ℚ) :=
  if data.length % 2 = 0 then some (pcmDecode data) else none

/-! ## Conversation orchestration (`InterviewSession`, src/unnamed/part_000)

The component state relevant to the claims is
`messages : Message[]`, `inputText : string`, `isLoading : boolean`
(plus the `isPlaying` boolean, which only the narration toggle
`handlePlayAudio` branches on and which is modelled with it).

External round-trips (`validateAnswer`, `generateInterviewQuestion`)
are parameters of the cycle: each either returns a value or throws — the
`try`/`catch`/`finally` of `handleSendMessage` is transcribed as is. -/

/-- `role` field of a `Message` (types.ts). -/
inductive Role where
  | ai : Role
  | user : Role
deriving DecidableEq, Repr

/-- `id` field of a `Message`: the literal `'init'` of the first question
or a `Date.now()`-derived timestamp string (`.toString()` is injective,
so the timestamp itself is kept). -/
inductive MsgId where
  | init : MsgId
  | time : Nat → MsgId
deriving DecidableEq, Repr

/-- A transcript entry (interface `Message` in types.ts). -/
structure Message where
  id : MsgId
  role : Role
  text : String
  feedback : Option String
  score : Option Int
deriving DecidableEq, Repr

/-- Component state of `InterviewSession` driving the claims. -/
structure SessionState where
  messages : List Message
  inputText : String
  isLoading : Bool
deriving DecidableEq, Repr

/-- Outcome of one awaited external call: a value, or an unexpected
exception propagating out of the await. -/
inductive ExtResult (α : Type) where
  | ok : α → ExtResult α
  | thrown : ExtResult α
deriving DecidableEq, Repr

/-- `validateAnswer` result shape: `{ feedback, score }`. -/
structure EvalResult where
  feedback : String
  score : Int
deriving DecidableEq, Repr

/-- Behaviour of the two external round-trips during one cycle. -/
structure CycleBehavior where
  validation : ExtResult EvalResult
  nextQuestion : ExtResult String
deriving DecidableEq, Repr

/-- A JavaScript runtime error surfacing from the handler. -/
inductive JsError where
  /-- reading `.text` of `undefined` (`messages[messages.length - 1]`
  on an empty array). -/
  | typeError : JsError
deriving DecidableEq, Repr

/-- Observable effects of one `handleSendMessage` cycle, in program
order: issuing and resolving each external call, mutating the user turn,
appending the AI turn. -/
inductive CycleEvent where
  | appendUser : CycleEvent
  | issueValidate : String → String → CycleEvent
  | validateResolved : CycleEvent
  | attachFeedbackEv : CycleEvent
  | issueGenerate : List String → CycleEvent
  | generateResolved : CycleEvent
  | appendAi : CycleEvent
deriving DecidableEq, Repr

/-- `String.prototype.trim` applied to the input, modelled over the
character list so that it evaluates by kernel reduction: leading and
trailing whitespace stripped. -/
def jsTrim (s : String) : String :=
  String.mk (((s.data.dropWhile Char.isWhitespace).reverse.dropWhile
    Char.isWhitespace).reverse)

/-- `setMessages(prev => [...prev, msg])`. -/
def appendMsg (l : List Message) (m : Message) : List Message :=
  l ++ [m]

/-- `setMessages(prev => prev.map(m => m.id === uid ? { ...m, feedback, score } : m))`
(part_000 lines 72–74). -/
def attachFeedback (l : List Message) (uid : MsgId) (fb : String) (sc : Int) :
    List Message :=
  l.map (fun m => if m.id = uid then { m with feedback := some fb, score := some sc } else m)

/-- The initial transcript set by the `startInterview` effect
(part_000 lines 24–26): `[{ id: 'init', role: 'ai', text: question }]`. -/
def startMessages (q : String) : List Message :=
  [⟨.init, .ai, q, none, none⟩]

/-- `handleSendMessage` (part_000 lines 57–91), with its emitted effect
trace.  `now` is the `Date.now()` value at the call.  Transcribed line by
line: the trim guard; the read of `messages[messages.length - 1].text`
(a `TypeError` on an empty transcript); appending the user turn, clearing
the input and setting `isLoading`; then the `try` block — await
validation, attach feedback, await the next question computed against the
stale `messages` closure, append the AI turn — whose exceptions the
`catch` swallows; and the `finally` clearing `isLoading`. -/
def handleSendMessageFull (s : SessionState) (b : CycleBehavior) (now : Nat) :
    Except JsError (SessionState × List CycleEvent) :=
  if (jsTrim s.inputText) = "" then .ok (s, [])
  else
    match s.messages.getLast? with
    | none => .error .typeError
    | some lastMsg =>
        let currentQuestion := lastMsg.text
        let userMsg : Message := ⟨.time now, .user, s.inputText, none, none⟩
        let s1 : SessionState :=
          { messages := appendMsg s.messages userMsg, inputText := "", isLoading := true }
        let ev0 : List CycleEvent :=
          [.appendUser, .issueValidate currentQuestion userMsg.text]
        let body : SessionState × List CycleEvent :=
          match b.validation with
          | .thrown => (s1, ev0)
          | .ok v =>
              let s2 : SessionState :=
                { s1 with
                  messages := attachFeedback s1.messages userMsg.id v.feedback v.score }
              let prevQuestions := (s.messages.filter (fun m => m.role = .ai)).map (·.text)
              let ev1 := ev0 ++ [.validateResolved, .attachFeedbackEv, .issueGenerate prevQuestions]
              match b.nextQuestion with
              | .thrown => (s2, ev1)
              | .ok q =>
                  let aiMsg : Message := ⟨.time (now + 1), .ai, q, none, none⟩
                  ({ s2 with messages := appendMsg s2.messages aiMsg },
                    ev1 ++ [.generateResolved, .appendAi])
        .ok ({ body.1 with isLoading := false }, body.2)

/-- The state part of a `handleSendMessage` call. -/
def handleSendMessage (s : SessionState) (b : CycleBehavior) (now : Nat) :
    Except JsError SessionState :=
  (handleSendMessageFull s b now).map Prod.fst

/-- The send button is rendered with
`disabled={!inputText.trim() || isLoading}` (part_000 line 199), so a
click reaches `handleSendMessage` only when this is `false`. -/
def sendDisabled (s : SessionState) : Bool :=
  (jsTrim s.inputText) = "" || s.isLoading

/-- Submission through the send button: a disabled button delivers no
click, so the state is untouched. -/
def submitViaButton (s : SessionState) (b : CycleBehavior) (now : Nat) :
    Except JsError SessionState :=
  if sendDisabled s then .ok s else handleSendMessage s b now

/-- Submission through the Enter key: the textarea is rendered with
`disabled={isLoading}` (part_000 line 194), so while loading no key event
reaches `handleKeyPress` and the state is untouched. -/
def submitViaEnter (s : SessionState) (b : CycleBehavior) (now : Nat) :
    Except JsError SessionState :=
  if s.isLoading then .ok s else handleSendMessage s b now

/-! ## Narration toggle (`handlePlayAudio`, part_000 lines 41–55)

The handler receives only the requested text; the sole state it branches
on is the boolean `isPlaying` — the component does not record which
turn's audio is sounding.  `speech` is the `generateSpeech` result
(`null` modelled as `none`).  The returned pair is the `isPlaying` value
after the handler's own updates and the audio-service call it makes. -/

/-- The audio-service interaction performed by one toggle. -/
inductive PlayAction where
  /-- `audioService.stop()`. -/
  | stopAudio : PlayAction
  /-- `audioService.playAudio(audio, () => setIsPlaying(false))`. -/
  | playText : String → PlayAction
  /-- no service call (synthesis returned `null`). -/
  | noAction : PlayAction
deriving DecidableEq, Repr

/-- `handlePlayAudio`: a toggle while `isPlaying` stops and returns;
otherwise it sets `isPlaying`, synthesizes, and plays the result or
resets the flag when synthesis failed. -/
def handlePlayAudio (isPlaying : Bool) (text : String) (speech : Option String) :
    Bool × PlayAction :=
  if isPlaying then (false, .stopAudio)
  else
    match speech with
    | some audio => (true, .playText audio)
    | none => (false, .noAction)

/-! ## Predicates used by the theorems -/

/-- Bookkeeping invariant of every reachable service state: the tracked
source exists, is a real (started, undelivered) node; each callback fires
at most once, only for existing sources, and never before its source's
`ended` handler has run. -/
def AudioInv (s : AudioState) : Prop :=
  (∀ i, s.currentSource = some i →
    ∃ src, s.sources[i]? = some src ∧ src.failed = false ∧ src.delivered = false) ∧
  s.firedCallbacks.Nodup ∧
  (∀ c ∈ s.firedCallbacks, c < s.sources.length) ∧
  (∀ i src, s.sources[i]? = some src → src.delivered = false → i ∉ s.firedCallbacks)

/-- `new` extends `old` without rewriting history: no entry is removed,
and an entry already present keeps its `id`, `role` and `text`; its
`feedback`/`score` either stay what they were, or it was a user entry
still awaiting feedback (the one permitted mutation). -/
def AppendOnlyStep (old new : List Message) : Prop :=
  old.length ≤ new.length ∧
  ∀ (i : Nat) (mo mn : Message), old[i]? = some mo → new[i]? = some mn →
    mn.id = mo.id ∧ mn.role = mo.role ∧ mn.text = mo.text ∧
    ((mn.feedback = mo.feedback ∧ mn.score = mo.score) ∨
      (mo.feedback = none ∧ mo.role = .user))

/-- Scan an effect trace checking the sequencing discipline: the
next-question round-trip may be issued, and the AI turn appended, only
after the validation round-trip has resolved and the feedback has been
attached. -/
def seqScan (sv sa : Bool) : List CycleEvent → Bool
  | [] => true
  | e :: rest =>
      match e with
      | .validateResolved => seqScan true sa rest
      | .attachFeedbackEv => seqScan sv true rest
      | .issueGenerate _ => sv && sa && seqScan sv sa rest
      | .appendAi => sv && sa && seqScan sv sa rest
      | _ => seqScan sv sa rest

/-- The sequencing discipline over a whole trace. -/
def sequentialOrder (tr : List CycleEvent) : Bool :=
  seqScan false false tr

/-! ## Lemmas about the audio model -/

theorem modifyAt_length (f : Src → Src) : ∀ (i : Nat) (l : List Src),
    (modifyAt f i l).length = l.length
  | i, [] => by cases i <;> rfl
  | 0, _ :: _ => rfl
  | n + 1, _ :: xs => congrArg Nat.succ (modifyAt_length f n xs)

theorem getElem?_modifyAt (f : Src → Src) : ∀ (i j : Nat) (l : List Src),
    (modifyAt f i l)[j]? = if j = i then l[j]?.map f else l[j]?
  | i, j, [] => by cases i <;> simp [modifyAt]
  | 0, 0, x :: xs => by simp [modifyAt]
  | 0, j + 1, x :: xs => by simp [modifyAt]
  | i + 1, 0, x :: xs => by simp [modifyAt]
  | i + 1, j + 1, x :: xs => by
      have ih := getElem?_modifyAt f i j xs
      by_cases hij : j = i <;> simp [modifyAt, hij] at ih ⊢ <;> simpa using ih

theorem audioInv_initial : AudioInv initialAudio := by
  refine ⟨?_, ?_, ?_, ?_⟩ <;> simp [initialAudio]

theorem audioInv_stopOp (s : AudioState) (h : AudioInv s) : AudioInv (stopOp s) := by
  obtain ⟨h1, h2, h3, h4⟩ := h
  cases hc : s.currentSource with
  | none => simpa [stopOp, hc] using ⟨h1, h2, h3, h4⟩
  | some i =>
      refine ⟨?_, ?_, ?_, ?_⟩ <;> simp only [stopOp, hc]
      · intro j hj; simp at hj
      · exact h2
      · intro c hc'
        simpa [modifyAt_length] using h3 c hc'
      · intro j src hj hdel
        rw [getElem?_modifyAt] at hj
        by_cases hji : j = i
        · subst hji
          simp at hj
          obtain ⟨src0, hsrc0, rfl⟩ := hj
          exact h4 j src0 hsrc0 hdel
        · simp [hji] at hj
          exact h4 j src hj hdel

theorem stopOp_currentSource (s : AudioState) : (stopOp s).currentSource = none := by
  cases hc : s.currentSource <;> simp [stopOp, hc]

theorem stopOp_sources_length (s : AudioState) :
    (stopOp s).sources.length = s.sources.length := by
  cases hc : s.currentSource <;> simp [stopOp, hc, modifyAt_length]

theorem audioInv_playOkOp (s : AudioState) (h : AudioInv s) : AudioInv (playOkOp s) := by
  obtain ⟨h1, h2, h3, h4⟩ := audioInv_stopOp s h
  refine ⟨?_, h2, ?_, ?_⟩ <;> simp only [playOkOp]
  · intro j hj
    simp at hj
    subst hj
    refine ⟨⟨false, false, false, false⟩, ?_, rfl, rfl⟩
    simp [List.getElem?_concat_length]
  · intro c hc'
    have := h3 c hc'
    simp only [List.length_append, List.length_cons, List.length_nil]
    omega
  · intro j src hj hdel
    by_cases hjl : j < (stopOp s).sources.length
    · rw [List.getElem?_append_left hjl] at hj
      exact h4 j src hj hdel
    · intro hmem
      exact absurd (h3 j hmem) hjl

theorem audioInv_playFailOp (s : AudioState) (h : AudioInv s) : AudioInv (playFailOp s) := by
  obtain ⟨h1, h2, h3, h4⟩ := audioInv_stopOp s h
  refine ⟨?_, ?_, ?_, ?_⟩ <;> simp only [playFailOp]
  · intro j hj
    rw [stopOp_currentSource] at hj
    simp at hj
  · rw [List.nodup_append]
    refine ⟨h2, List.nodup_singleton _, ?_⟩
    intro c hc' hc''
    simp at hc''
    subst hc''
    exact absurd (h3 _ hc') (lt_irrefl _)
  · intro c hc'
    simp only [List.mem_append, List.mem_singleton] at hc'
    simp only [List.length_append, List.length_cons, List.length_nil]
    rcases hc' with hc' | rfl
    · have := h3 c hc'; omega
    · omega
  · intro j src hj hdel hmem
    simp only [List.mem_append, List.mem_singleton] at hmem
    have hjlt : j < (stopOp s).sources.length + 1 := by
      have := (List.getElem?_eq_some.mp hj).1
      simpa using this
    by_cases hjl : j < (stopOp s).sources.length
    · rw [List.getElem?_append_left hjl] at hj
      rcases hmem with hmem | rfl
      · exact h4 j src hj hdel hmem
      · exact absurd hjl (lt_irrefl _)
    · have hj' : j = (stopOp s).sources.length := by omega
      subst hj'
      rw [List.getElem?_concat_length] at hj
      rw [← Option.some.injEq] at hj
      simp at hj
      rw [← hj] at hdel
      simp at hdel

theorem audioInv_natEndOp (s : AudioState) (i : Nat) (h : AudioInv s) :
    AudioInv (natEndOp s i) := by
  obtain ⟨h1, h2, h3, h4⟩ := h
  unfold natEndOp
  split
  · exact ⟨h1, h2, h3, h4⟩
  · next src hg =>
      split
      · refine ⟨?_, h2, ?_, ?_⟩
        · intro j hj
          obtain ⟨src0, hsrc0, hf, hd⟩ := h1 j hj
          rw [getElem?_modifyAt]
          by_cases hji : j = i
          · subst hji
            exact ⟨{ src0 with naturallyEnded := true }, by simp [hsrc0], hf, hd⟩
          · exact ⟨src0, by simp [hji, hsrc0], hf, hd⟩
        · intro c hc'
          simpa [modifyAt_length] using h3 c hc'
        · intro j src' hj hdel
          rw [getElem?_modifyAt] at hj
          by_cases hji : j = i
          · subst hji
            simp at hj
            obtain ⟨src0, hsrc0, rfl⟩ := hj
            exact h4 j src0 hsrc0 hdel
          · simp [hji] at hj
            exact h4 j src' hj hdel
      · exact ⟨h1, h2, h3, h4⟩

theorem audioInv_deliverOp (s : AudioState) (i : Nat) (h : AudioInv s) :
    AudioInv (deliverOp s i) := by
  obtain ⟨h1, h2, h3, h4⟩ := h
  unfold deliverOp
  by_cases hp : endedPendingB s i = true
  · rw [if_pos hp]
    unfold endedPendingB at hp
    cases hg : s.sources[i]? with
    | none => rw [hg] at hp; simp at hp
    | some src =>
        rw [hg] at hp
        simp only [Bool.and_eq_true, Bool.not_eq_true'] at hp
        obtain ⟨⟨hfail, _⟩, hdel⟩ := hp
        have hnotmem : i ∉ s.firedCallbacks := h4 i src hg hdel
        refine ⟨?_, ?_, ?_, ?_⟩
        · intro j hj; simp at hj
        · rw [List.nodup_append]
          exact ⟨h2, List.nodup_singleton _, fun c hc' hc'' => by
            simp at hc''; subst hc''; exact hnotmem hc'⟩
        · intro c hc'
          simp only [List.mem_append, List.mem_singleton] at hc'
          rw [modifyAt_length]
          rcases hc' with hc' | rfl
          · exact h3 c hc'
          · exact (List.getElem?_eq_some.mp hg).1
        · intro j src' hj hdel' hmem
          simp only [List.mem_append, List.mem_singleton] at hmem
          rw [getElem?_modifyAt] at hj
          by_cases hji : j = i
          · subst hji
            rw [hg] at hj
            simp at hj
            rw [← hj] at hdel'
            simp at hdel'
          · simp [hji] at hj
            rcases hmem with hmem | rfl
            · exact h4 j src' hj hdel' hmem
            · exact hji rfl
  · rw [if_neg hp]
    exact ⟨h1, h2, h3, h4⟩

theorem audioInv_applyOp (s : AudioState) (op : AOp) (h : AudioInv s) :
    AudioInv (applyOp s op) := by
  cases op with
  | playOk => exact audioInv_playOkOp s h
  | playFail => exact audioInv_playFailOp s h
  | stop => exact audioInv_stopOp s h
  | natEnd i => exact audioInv_natEndOp s i h
  | deliver i => exact audioInv_deliverOp s i h

theorem audioInv_foldl : ∀ (ops : List AOp) (s : AudioState), AudioInv s →
    AudioInv (ops.foldl applyOp s)
  | [], _, h => h
  | op :: ops, s, h => audioInv_foldl ops (applyOp s op) (audioInv_applyOp s op h)

theorem audioInv_audioRun (ops : List AOp) : AudioInv (audioRun ops) :=
  audioInv_foldl ops initialAudio audioInv_initial

theorem stopOp_firedCallbacks (s : AudioState) :
    (stopOp s).firedCallbacks = s.firedCallbacks := by
  cases hc : s.currentSource <;> simp [stopOp, hc]

theorem endedPendingB_stopOp (s : AudioState) (i : Nat) (hinv : AudioInv s)
    (hc : s.currentSource = some i) : endedPendingB (stopOp s) i = true := by
  obtain ⟨h1, _, _, _⟩ := hinv
  obtain ⟨src, hsrc, hfail, hdel⟩ := h1 i hc
  simp only [stopOp, hc]
  unfold endedPendingB
  simp [getElem?_modifyAt, hsrc, hfail, hdel]

theorem endedPendingB_playOkOp (s : AudioState) (i : Nat) (hinv : AudioInv s)
    (hc : s.currentSource = some i) : endedPendingB (playOkOp s) i = true := by
  obtain ⟨h1, _, _, _⟩ := hinv
  obtain ⟨src, hsrc, hfail, hdel⟩ := h1 i hc
  have hlt : i < (stopOp s).sources.length := by
    rw [stopOp_sources_length]
    exact (List.getElem?_eq_some.mp hsrc).1
  unfold playOkOp endedPendingB
  rw [List.getElem?_append_left hlt]
  simp only [stopOp, hc]
  simp [getElem?_modifyAt, hsrc, hfail, hdel]

theorem deliverOp_fires (s : AudioState) (i : Nat) (hp : endedPendingB s i = true) :
    (deliverOp s i).firedCallbacks = s.firedCallbacks ++ [i] := by
  unfold deliverOp
  rw [if_pos hp]

theorem soundingCount_modifyAt_stop (i : Nat) (l : List Src) :
    ((modifyAt (fun src => { src with stopRequested := true }) i l).filter
      soundingB).length ≤ (l.filter soundingB).length := by
  induction l generalizing i with
  | nil => cases i <;> simp [modifyAt]
  | cons x xs ih =>
      cases i with
      | zero =>
          have hstop : soundingB { x with stopRequested := true } = false := by
            simp [soundingB]
          by_cases hx : soundingB x = true <;>
            simp [modifyAt, List.filter_cons, hstop, hx]
      | succ n =>
          by_cases hx : soundingB x = true <;>
            simpa [modifyAt, List.filter_cons, hx] using ih n

theorem soundingCount_stopOp (s : AudioState) :
    soundingCount (stopOp s) ≤ soundingCount s := by
  cases hc : s.currentSource with
  | none => simp [stopOp, hc]
  | some i =>
      simp only [stopOp, hc, soundingCount]
      exact soundingCount_modifyAt_stop i s.sources

/-- Claim C1 — evaluated at the failing trace.  The trace is: a first
`playAudio`; a second `playAudio` (its internal `this.stop()` stops the
first source and schedules its `ended` event); the browser delivers that
event, whose handler (audio.ts line 67) nulls `currentSource`
unconditionally even though the field now tracks the second, still
sounding, source; a third `playAudio`, whose internal `this.stop()` is
now a no-op because `currentSource` is `null`.  The second and third
sources sound concurrently — the trace contains no external `stop()`
call, yet the count of simultaneously sounding outputs is 2, violating
the single-channel invariant the claim (and the code's own comment at
audio.ts line 55) states. -/
theorem two_playbacks_sound_concurrently_after_stale_ended :
    soundingCount (audioRun [.playOk, .playOk, .deliver 0, .playOk]) = 2 ∧
    hasStopOp [.playOk, .playOk, .deliver 0, .playOk] = false := by
  decide

/-- Claim C2 — counterexample.  In the trace `playAudio`; `playAudio`;
delivery of the first source's `ended` event, the first playback's
callback fires (`firedCallbacks = [0]`) although the trace contains no
external `stop()` call and no source reached its natural end: the
internal stop performed by the superseding `play` is exactly what
scheduled it.  This refutes "the completion callback of an active
playback is never fired by the internal stop that happens when a new
play supersedes it; it is fired only on natural completion or an
explicit stop() call". -/
theorem superseded_playback_callback_fires :
    (audioRun [.playOk, .playOk, .deliver 0]).firedCallbacks = [0] ∧
    hasStopOp [.playOk, .playOk, .deliver 0] = false ∧
    hasNatEndOp [.playOk, .playOk, .deliver 0] = false := by
  decide

/-- Claim C2 — amended.  What the code actually guarantees: (1) `stop()`
with no active playback is a no-op; (2) an explicit `stop()` of the
active playback schedules its `ended` event (so its callback fires, as
soon as deliverable); (3) a `playAudio` that supersedes the active
playback schedules that same `ended` event in exactly the same way —
there is no asymmetry between the two paths; (4) delivering a pending
`ended` event fires the registered callback; (5) over any reachable
state, each playback's callback has fired at most once. -/
theorem callback_firing_semantics :
    (∀ s : AudioState, s.currentSource = none → stopOp s = s) ∧
    (∀ ops i, (audioRun ops).currentSource = some i →
      endedPendingB (stopOp (audioRun ops)) i = true) ∧
    (∀ ops i, (audioRun ops).currentSource = some i →
      endedPendingB (playOkOp (audioRun ops)) i = true) ∧
    (∀ s i, endedPendingB s i = true →
      (deliverOp s i).firedCallbacks = s.firedCallbacks ++ [i]) ∧
    (∀ ops, (audioRun ops).firedCallbacks.Nodup) := by
  refine ⟨?_, ?_, ?_, ?_, ?_⟩
  · intro s h; simp [stopOp, h]
  · intro ops i hc
    exact endedPendingB_stopOp _ i (audioInv_audioRun ops) hc
  · intro ops i hc
    exact endedPendingB_playOkOp _ i (audioInv_audioRun ops) hc
  · intro s i hp
    exact deliverOp_fires s i hp
  · intro ops
    exact (audioInv_audioRun ops).2.1

/-- Witness for `callback_firing_semantics` at concrete inputs. -/
theorem callback_firing_semantics_witness :
    endedPendingB (stopOp (audioRun [AOp.playOk])) 0 = true ∧
    endedPendingB (playOkOp (audioRun [AOp.playOk])) 0 = true ∧
    (audioRun [AOp.playOk, AOp.playOk, AOp.deliver 0]).firedCallbacks.Nodup ∧
    stopOp initialAudio = initialAudio :=
  ⟨callback_firing_semantics.2.1 [AOp.playOk] 0 rfl,
   callback_firing_semantics.2.2.1 [AOp.playOk] 0 rfl,
   callback_firing_semantics.2.2.2.2 [AOp.playOk, AOp.playOk, AOp.deliver 0],
   callback_firing_semantics.1 initialAudio rfl⟩

/-- Claim C8: when decoding or device acquisition fails inside
`playAudio`, the `catch` block fires the new call's `onEnded`
immediately, `currentSource` ends up `null` (no active handle), and the
call adds no sounding output — the failure degrades to silence. -/
theorem failed_play_fires_callback_leaves_no_handle (s : AudioState) :
    (playFailOp s).currentSource = none ∧
    (playFailOp s).firedCallbacks = s.firedCallbacks ++ [s.sources.length] ∧
    soundingCount (playFailOp s) ≤ soundingCount s := by
  refine ⟨?_, ?_, ?_⟩
  · show (stopOp s).currentSource = none
    exact stopOp_currentSource s
  · show (stopOp s).firedCallbacks ++ [(stopOp s).sources.length] =
      s.firedCallbacks ++ [s.sources.length]
    rw [stopOp_firedCallbacks, stopOp_sources_length]
  · have h1 : soundingCount (playFailOp s) = soundingCount (stopOp s) := by
      simp [playFailOp, soundingCount, List.filter_append, soundingB]
    rw [h1]
    exact soundingCount_stopOp s

/-! ## Lemmas about PCM decoding -/

theorem toInt16_bounds (lo hi : Nat) (hlo : lo < 256) (hhi : hi < 256) :
    -32768 ≤ toInt16 lo hi ∧ toInt16 lo hi ≤ 32767 := by
  unfold toInt16
  split <;> omega

theorem normSample_bounds (lo hi : Nat) (hlo : lo < 256) (hhi : hi < 256) :
    -1 ≤ normSample lo hi ∧ normSample lo hi ≤ 1 := by
  obtain ⟨hl, hr⟩ := toInt16_bounds lo hi hlo hhi
  have hl' : (-32768 : ℚ) ≤ (toInt16 lo hi : ℚ) := by exact_mod_cast hl
  have hr' : (toInt16 lo hi : ℚ) ≤ 32767 := by exact_mod_cast hr
  have h32 : (0 : ℚ) < 32768 := by norm_num
  unfold normSample
  constructor
  · rw [le_div_iff h32]
    linarith
  · rw [div_le_one h32]
    linarith

theorem pcmDecode_length : ∀ (l : List Nat), (pcmDecode l).length = l.length / 2
  | [] => rfl
  | [_] => by simp [pcmDecode]
  | _ :: _ :: rest => by
      have ih := pcmDecode_length rest
      simp [pcmDecode, ih]
      omega

theorem pcmDecode_getElem? : ∀ (l : List Nat) (i lo hi : Nat),
    l[2 * i]? = some lo → l[2 * i + 1]? = some hi →
    (pcmDecode l)[i]? = some (normSample lo hi)
  | [], _, _, _, h1, _ => by simp at h1
  | [x], i, _, _, _, h2 => by
      cases i with
      | zero => simp at h2
      | succ n =>
          rw [show 2 * (n + 1) + 1 = (2 * n + 2) + 1 by ring] at h2
          simp at h2
  | a :: b :: rest, 0, lo, hi, h1, h2 => by
      simp at h1 h2
      subst h1
      subst h2
      simp [pcmDecode]
  | a :: b :: rest, i + 1, lo, hi, h1, h2 => by
      rw [show 2 * (i + 1) = (2 * i + 1) + 1 by ring] at h1
      rw [show 2 * (i + 1) + 1 = ((2 * i + 1) + 1) + 1 by ring] at h2
      simp only [List.getElem?_cons_succ] at h1 h2
      have ih := pcmDecode_getElem? rest i lo hi h1 h2
      simpa [pcmDecode] using ih

theorem pcmDecode_mem_bounds : ∀ (l : List Nat), (∀ b ∈ l, b < 256) →
    ∀ q ∈ pcmDecode l, -1 ≤ q ∧ q ≤ 1
  | [], _, _, hq => by simp [pcmDecode] at hq
  | [_], _, _, hq => by simp [pcmDecode] at hq
  | a :: b :: rest, hb, q, hq => by
      simp only [pcmDecode, List.mem_cons] at hq
      rcases hq with rfl | hq
      · exact normSample_bounds a b (hb a (by simp)) (hb b (by simp))
      · exact pcmDecode_mem_bounds rest (fun y hy => hb y (by simp [hy])) q hq

theorem pcmDecode_replicate_zero : ∀ (n : Nat),
    pcmDecode (List.replicate (2 * n) 0) = List.replicate n 0
  | 0 => rfl
  | n + 1 => by
      rw [show 2 * (n + 1) = (2 * n + 1) + 1 by ring, List.replicate_succ,
        List.replicate_succ, List.replicate_succ]
      have ih := pcmDecode_replicate_zero n
      simp [pcmDecode, ih, normSample, toInt16]

/-- Claim C3: a raw PCM payload of byte length `2 * sampleCount` decodes
to exactly `sampleCount` samples; the sample at index `i` equals the
signed 16-bit little-endian value of bytes `2i, 2i+1` divided by 32768;
every sample lies in `[-1, 1]`; and the all-zero payload decodes to
all-zero samples. -/
theorem decode_pcm_normalized (bytes : List Nat) (n : Nat)
    (hb : ∀ b ∈ bytes, b < 256) (hl : bytes.length = 2 * n) :
    ∃ samples, decodeAudioData bytes = some samples ∧
      samples.length = n ∧
      (∀ i lo hi, bytes[2 * i]? = some lo → bytes[2 * i + 1]? = some hi →
        samples[i]? = some ((toInt16 lo hi : ℚ) / 32768)) ∧
      (∀ q ∈ samples, -1 ≤ q ∧ q ≤ 1) ∧
      (bytes = List.replicate (2 * n) 0 → samples = List.replicate n 0) := by
  refine ⟨pcmDecode bytes, ?_, ?_, ?_, ?_, ?_⟩
  · unfold decodeAudioData
    rw [if_pos (by omega)]
  · rw [pcmDecode_length, hl]
    omega
  · intro i lo hi h1 h2
    exact pcmDecode_getElem? bytes i lo hi h1 h2
  · exact pcmDecode_mem_bounds bytes hb
  · intro hz
    rw [hz]
    exact pcmDecode_replicate_zero n

theorem attachFeedback_fresh (uid : MsgId) (fb : String) (sc : Int) :
    ∀ (l : List Message), (∀ x ∈ l, x.id ≠ uid) → attachFeedback l uid fb sc = l
  | [], _ => rfl
  | x :: xs, h => by
      have hx : x.id ≠ uid := h x (by simp)
      have ih := attachFeedback_fresh uid fb sc xs (fun y hy => h y (by simp [hy]))
      unfold attachFeedback at ih ⊢
      simp only [List.map_cons]
      rw [if_neg hx, ih]

theorem attachFeedback_append (l1 l2 : List Message) (uid : MsgId) (fb : String)
    (sc : Int) : attachFeedback (l1 ++ l2) uid fb sc =
      attachFeedback l1 uid fb sc ++ attachFeedback l2 uid fb sc := by
  unfold attachFeedback
  rw [List.map_append]

/-- Claim C5: a submission attempt is rejected, leaving the state
untouched, whenever the trimmed input is empty or the session is busy
(`isLoading = true`): the send button is disabled by
`!inputText.trim() || isLoading` and the textarea by `isLoading`, and
`handleSendMessage` itself returns at once on an empty trimmed input. -/
theorem submission_rejected_when_empty_or_busy (s : SessionState) (b : CycleBehavior)
    (now : Nat) (h : (jsTrim s.inputText) = "" ∨ s.isLoading = true) :
    submitViaButton s b now = .ok s ∧ submitViaEnter s b now = .ok s := by
  rcases h with h | h
  · constructor
    · simp [submitViaButton, sendDisabled, h]
    · by_cases hl : s.isLoading
      · simp [submitViaEnter, hl]
      · simp [submitViaEnter, hl, handleSendMessage, handleSendMessageFull, h, Except.map]
  · constructor
    · simp [submitViaButton, sendDisabled, h]
    · simp [submitViaEnter, h]

/-- Witness for `submission_rejected_when_empty_or_busy`: a busy state
with non-empty input. -/
theorem submission_rejected_witness :
    (jsTrim (⟨[], "hi", true⟩ : SessionState).inputText = "" ∨
      (⟨[], "hi", true⟩ : SessionState).isLoading = true) ∧
    submitViaButton ⟨[], "hi", true⟩ ⟨.thrown, .thrown⟩ 0 = .ok ⟨[], "hi", true⟩ ∧
    submitViaEnter ⟨[], "hi", true⟩ ⟨.thrown, .thrown⟩ 0 = .ok ⟨[], "hi", true⟩ :=
  ⟨Or.inr rfl,
   (submission_rejected_when_empty_or_busy ⟨[], "hi", true⟩ ⟨.thrown, .thrown⟩ 0
      (Or.inr rfl)).1,
   (submission_rejected_when_empty_or_busy ⟨[], "hi", true⟩ ⟨.thrown, .thrown⟩ 0
      (Or.inr rfl)).2⟩

/-- Claim C6: the transcript is append-only across every operation that
touches it.  The start effect writes the single initial AI turn into the
empty list; `setMessages(prev => [...prev, msg])` appends; the feedback
update preserves every entry's `id`, `role` and `text`, changing only
the feedback/score of entries carrying the fresh user-turn id — which
are user turns still awaiting feedback; and a whole successful
`handleSendMessage` call only appends to the transcript it started
from (given the freshness of the `Date.now()` id). -/
theorem transcript_append_only :
    (∀ q : String, AppendOnlyStep [] (startMessages q)) ∧
    (∀ (l : List Message) (m : Message), AppendOnlyStep l (appendMsg l m)) ∧
    (∀ (l : List Message) (uid : MsgId) (fb : String) (sc : Int),
      (∀ x ∈ l, x.id = uid → x.role = .user ∧ x.feedback = none) →
      AppendOnlyStep l (attachFeedback l uid fb sc)) ∧
    (∀ (s : SessionState) (b : CycleBehavior) (now : Nat) (s' : SessionState),
      (∀ x ∈ s.messages, x.id ≠ MsgId.time now) →
      handleSendMessage s b now = .ok s' →
      ∃ tail, s'.messages = s.messages ++ tail) := by
  refine ⟨?_, ?_, ?_, ?_⟩
  · intro q
    refine ⟨by simp [startMessages], ?_⟩
    intro i mo mn h1 _
    simp at h1
  · intro l m
    refine ⟨by simp [appendMsg], ?_⟩
    intro i mo mn h1 h2
    have hi : i < l.length := (List.getElem?_eq_some.mp h1).1
    rw [appendMsg, List.getElem?_append_left hi, h1] at h2
    obtain rfl : mo = mn := by simpa using h2
    exact ⟨rfl, rfl, rfl, Or.inl ⟨rfl, rfl⟩⟩
  · intro l uid fb sc hu
    refine ⟨by simp [attachFeedback], ?_⟩
    intro i mo mn h1 h2
    unfold attachFeedback at h2
    rw [List.getElem?_map, h1] at h2
    simp only [Option.map_some', Option.some.injEq] at h2
    have hmem : mo ∈ l := by
      obtain ⟨hlt, hget⟩ := List.getElem?_eq_some.mp h1
      exact hget ▸ List.getElem_mem hlt
    by_cases hid : mo.id = uid
    · rw [if_pos hid] at h2
      subst h2
      exact ⟨rfl, rfl, rfl, Or.inr ⟨(hu mo hmem hid).2, (hu mo hmem hid).1⟩⟩
    · rw [if_neg hid] at h2
      subst h2
      exact ⟨rfl, rfl, rfl, Or.inl ⟨rfl, rfl⟩⟩
  · intro s b now s' hfresh hok
    unfold handleSendMessage handleSendMessageFull at hok
    by_cases ht : (jsTrim s.inputText) = ""
    · rw [if_pos ht] at hok
      simp only [Except.map, Except.ok.injEq] at hok
      subst hok
      exact ⟨[], by simp⟩
    · rw [if_neg ht] at hok
      cases hg : s.messages.getLast? with
      | none => rw [hg] at hok; simp [Except.map] at hok
      | some lastMsg =>
          rw [hg] at hok
          rcases b with ⟨bv, bq⟩
          cases bv with
          | thrown =>
              simp only [Except.map, Except.ok.injEq] at hok
              refine ⟨[⟨MsgId.time now, Role.user, s.inputText, none, none⟩], ?_⟩
              rw [← hok]
              rfl
          | ok v =>
              have hattach :
                  attachFeedback (s.messages ++
                      [⟨MsgId.time now, Role.user, s.inputText, none, none⟩])
                    (MsgId.time now) v.feedback v.score =
                  s.messages ++
                    [⟨MsgId.time now, Role.user, s.inputText, some v.feedback,
                      some v.score⟩] := by
                rw [attachFeedback_append,
                  attachFeedback_fresh (MsgId.time now) v.feedback v.score s.messages hfresh]
                simp [attachFeedback]
              cases bq with
              | thrown =>
                  simp only [Except.map, Except.ok.injEq] at hok
                  refine ⟨[⟨MsgId.time now, Role.user, s.inputText, some v.feedback,
                    some v.score⟩], ?_⟩
                  rw [← hok]
                  simp only [appendMsg]
                  exact hattach
              | ok q =>
                  simp only [Except.map, Except.ok.injEq] at hok
                  refine ⟨[⟨MsgId.time now, Role.user, s.inputText, some v.feedback,
                    some v.score⟩, ⟨MsgId.time (now + 1), Role.ai, q, none, none⟩], ?_⟩
                  rw [← hok]
                  simp only [appendMsg]
                  rw [hattach]
                  simp

/-- Witness for `transcript_append_only`: the feedback attachment on a
one-entry transcript, and a full successful cycle from one AI turn. -/
theorem transcript_append_only_witness :
    AppendOnlyStep [⟨MsgId.init, Role.ai, "Q1", none, none⟩]
      (attachFeedback [⟨MsgId.init, Role.ai, "Q1", none, none⟩] (MsgId.time 7) "Good" 8) ∧
    (∃ tail,
      (⟨[⟨MsgId.init, Role.ai, "Q1", none, none⟩,
          ⟨MsgId.time 7, Role.user, "ans", some "Good", some 8⟩,
          ⟨MsgId.time 8, Role.ai, "Q2", none, none⟩], "", false⟩ : SessionState).messages =
        (⟨[⟨MsgId.init, Role.ai, "Q1", none, none⟩], "ans", false⟩ :
          SessionState).messages ++ tail) :=
  ⟨transcript_append_only.2.2.1 _ _ _ _ (by decide),
   transcript_append_only.2.2.2 ⟨[⟨MsgId.init, Role.ai, "Q1", none, none⟩], "ans", false⟩
     ⟨.ok ⟨"Good", 8⟩, .ok "Q2"⟩ 7 _ (by decide) rfl⟩

/-- Claim C7: a submission cycle (non-empty trimmed input, non-empty
transcript) always completes without an uncaught error and ends with
`isLoading = false`, whatever the two external calls do — including
throwing — because the `finally` block clears the flag on every exit
path. -/
theorem isBusy_cleared_on_every_exit (s : SessionState) (b : CycleBehavior) (now : Nat)
    (h1 : (jsTrim s.inputText) ≠ "") (h2 : s.messages ≠ []) :
    ∃ s', handleSendMessage s b now = .ok s' ∧ s'.isLoading = false := by
  obtain ⟨lastMsg, hg⟩ : ∃ m, s.messages.getLast? = some m := by
    cases hm : s.messages.getLast? with
    | none => exact absurd (List.getLast?_eq_none_iff.mp hm) h2
    | some m => exact ⟨m, rfl⟩
  unfold handleSendMessage handleSendMessageFull
  rw [if_neg h1, hg]
  rcases b with ⟨bv, bq⟩
  cases bv <;> cases bq <;> exact ⟨_, rfl, rfl⟩

/-- Witness for `isBusy_cleared_on_every_exit`: both external calls
throw, yet the cycle ends with the busy flag cleared. -/
theorem isBusy_cleared_witness :
    ∃ s', handleSendMessage ⟨[⟨MsgId.init, Role.ai, "Q1", none, none⟩], "ans", false⟩
      ⟨.thrown, .thrown⟩ 7 = .ok s' ∧ s'.isLoading = false :=
  isBusy_cleared_on_every_exit ⟨[⟨MsgId.init, Role.ai, "Q1", none, none⟩], "ans", false⟩
    ⟨.thrown, .thrown⟩ 7 (by decide) (by decide)

/-- Claim C9: with a non-empty trimmed input and an empty transcript,
`handleSendMessage` reads `messages[messages.length - 1].text` — the
`.text` of `undefined` — and faults with a `TypeError` before reaching
any later logic (and before any state mutation). -/
theorem submit_faults_on_empty_transcript (s : SessionState) (b : CycleBehavior)
    (now : Nat) (h1 : (jsTrim s.inputText) ≠ "") (h2 : s.messages = []) :
    handleSendMessage s b now = .error .typeError := by
  unfold handleSendMessage handleSendMessageFull
  rw [if_neg h1, show s.messages.getLast? = none by rw [h2]; rfl]
  rfl

/-- Witness for `submit_faults_on_empty_transcript`. -/
theorem submit_faults_witness :
    handleSendMessage ⟨[], "ans", false⟩ ⟨.thrown, .thrown⟩ 0 = .error .typeError :=
  submit_faults_on_empty_transcript ⟨[], "ans", false⟩ ⟨.thrown, .thrown⟩ 0
    (by decide) rfl

/-- Claim C10: in every completing cycle, the effect trace satisfies the
sequencing discipline: the next-question round-trip is issued, and the
new AI turn appended, only after the validation round-trip has resolved
and the feedback has been attached to the user turn — the two external
calls are never outstanding concurrently. -/
theorem evaluation_strictly_before_generation (s : SessionState) (b : CycleBehavior)
    (now : Nat) (s' : SessionState) (tr : List CycleEvent)
    (hok : handleSendMessageFull s b now = .ok (s', tr)) :
    sequentialOrder tr = true := by
  unfold handleSendMessageFull at hok
  by_cases ht : (jsTrim s.inputText) = ""
  · rw [if_pos ht] at hok
    simp only [Except.ok.injEq, Prod.mk.injEq] at hok
    rw [← hok.2]
    rfl
  · rw [if_neg ht] at hok
    cases hg : s.messages.getLast? with
    | none => rw [hg] at hok; simp at hok
    | some lastMsg =>
        rw [hg] at hok
        rcases b with ⟨bv, bq⟩
        cases bv with
        | thrown =>
            simp only [Except.ok.injEq, Prod.mk.injEq] at hok
            rw [← hok.2]
            rfl
        | ok v =>
            cases bq with
            | thrown =>
                simp only [Except.ok.injEq, Prod.mk.injEq] at hok
                rw [← hok.2]
                rfl
            | ok q =>
                simp only [Except.ok.injEq, Prod.mk.injEq] at hok
                rw [← hok.2]
                rfl

/-- Witness for `evaluation_strictly_before_generation` on a concrete
successful cycle. -/
theorem evaluation_order_witness :
    sequentialOrder [CycleEvent.appendUser, CycleEvent.issueValidate "Q1" "ans",
      CycleEvent.validateResolved, CycleEvent.attachFeedbackEv,
      CycleEvent.issueGenerate ["Q1"], CycleEvent.generateResolved,
      CycleEvent.appendAi] = true :=
  evaluation_strictly_before_generation
    ⟨[⟨MsgId.init, Role.ai, "Q1", none, none⟩], "ans", false⟩
    ⟨.ok ⟨"Good", 8⟩, .ok "Q2"⟩ 7
    ⟨[⟨MsgId.init, Role.ai, "Q1", none, none⟩,
      ⟨MsgId.time 7, Role.user, "ans", some "Good", some 8⟩,
      ⟨MsgId.time 8, Role.ai, "Q2", none, none⟩], "", false⟩
    [CycleEvent.appendUser, CycleEvent.issueValidate "Q1" "ans",
      CycleEvent.validateResolved, CycleEvent.attachFeedbackEv,
      CycleEvent.issueGenerate ["Q1"], CycleEvent.generateResolved,
      CycleEvent.appendAi]
    rfl

/-- Claim C4 — counterexample.  `InterviewSession` tracks narration with
the single boolean `isPlaying` (part_000 line 16); `handlePlayAudio`
branches only on it.  While some turn's audio is sounding
(`isPlaying = true`), requesting narration of a different turn's text
stops the sound instead of starting playback of the requested turn: the
returned action is `stopAudio`, not `playText` of the synthesized
audio. -/
theorem toggle_while_other_turn_sounding_stops :
    handlePlayAudio true "Question B" (some "audioB") = (false, PlayAction.stopAudio) ∧
    (handlePlayAudio true "Question B" (some "audioB")).2 ≠
      PlayAction.playText "audioB" := by
  decide

/-- Claim C4 — amended.  The toggle distinguishes play from stop only by
the global boolean "is any audio sounding": while `isPlaying` it always
stops, whichever turn is requested; when idle it starts playback of the
requested turn's synthesized audio, or resets the flag when synthesis
returned nothing. -/
theorem toggle_tracks_only_isPlaying (text : String) (speech : Option String) :
    handlePlayAudio true text speech = (false, PlayAction.stopAudio) ∧
    (∀ audio, handlePlayAudio false text (some audio) =
      (true, PlayAction.playText audio)) ∧
    handlePlayAudio false text none = (false, PlayAction.noAction) :=
  ⟨rfl, fun _ => rfl, rfl⟩

/-- Witness for `decode_pcm_normalized` on the payload
`[0x34, 0x12, 0xFF, 0xFF]` (samples `0x1234 / 32768` and `-1 / 32768`). -/
theorem decode_pcm_normalized_witness :
    ∃ samples, decodeAudioData [52, 18, 255, 255] = some samples ∧
      samples.length = 2 ∧
      (∀ i lo hi, ([52, 18, 255, 255] : List Nat)[2 * i]? = some lo →
        ([52, 18, 255, 255] : List Nat)[2 * i + 1]? = some hi →
        samples[i]? = some ((toInt16 lo hi : ℚ) / 32768)) ∧
      (∀ q ∈ samples, -1 ≤ q ∧ q ≤ 1) ∧
      ([52, 18, 255, 255] = List.replicate (2 * 2) 0 →
        samples = List.replicate 2 0) :=
  decode_pcm_normalized [52, 18, 255, 255] 2 (by decide) rfl

end Interview
